import Mathlib

/-!
# GCE-Math floating-point classification predicates

A shallow embedding of `include/gcem_incl/is_nan.hpp`, `is_inf.hpp` and
`is_finite.hpp`.

The template parameter `T` is an IEEE 754 binary interchange format.  A value
of `T` is its encoding: a sign bit, a biased exponent field and a trailing
significand field.  The only operations the sources apply to a `T` are the
comparison operators `==` and `!=`, unary minus, and the positive-infinity
constant of `T`; all four are exact operations on encodings.

A call expression of the variadic templates is modelled on the list of its
arguments and yields `Option Bool`: `none` stands for a call for which no
function template can be instantiated (the program is rejected and the call has
no value), `some b` for a call that returns `b`.
-/

namespace Gcem

/-! ## Data model -/

/-- An IEEE 754 binary interchange format: the width of the biased exponent
field and of the trailing significand field.  The exponent field is at least
one bit wide, so that the all-ones exponent differs from the all-zeros one. -/
structure Format where
  ebits : Nat
  mbits : Nat
  ebits_pos : 0 < ebits

/-- A value of the floating-point type `T`, given by its encoding. -/
structure FP (F : Format) where
  sign : Bool
  exp : Nat
  man : Nat
  exp_lt : exp < 2 ^ F.ebits
  man_lt : man < 2 ^ F.mbits

namespace FP

variable {F : Format}

/-- The encoding is a NaN: exponent all ones, significand field non-zero. -/
def isNaN (x : FP F) : Bool := x.exp + 1 == 2 ^ F.ebits && x.man != 0

/-- The encoding is an infinity: exponent all ones, significand field zero. -/
def isInfinite (x : FP F) : Bool := x.exp + 1 == 2 ^ F.ebits && x.man == 0

/-- The encoding is positive infinity. -/
def isPosInf (x : FP F) : Bool := x.isInfinite && !x.sign

/-- The encoding is negative infinity. -/
def isNegInf (x : FP F) : Bool := x.isInfinite && x.sign

/-- The encoding is a finite number (zero, subnormal or normal): the exponent
field is not all ones. -/
def isFinite (x : FP F) : Bool := x.exp + 1 != 2 ^ F.ebits

/-- The encoding is a zero of either sign. -/
def isZero (x : FP F) : Bool := x.exp == 0 && x.man == 0

/-- The encoding is a subnormal number. -/
def isSubnormal (x : FP F) : Bool := x.exp == 0 && x.man != 0

/-- The operator `==` of `T`: false when an operand is a NaN, true on two
zeros of any signs, otherwise equality of the encodings. -/
def eq (x y : FP F) : Bool :=
  if x.isNaN || y.isNaN then false
  else if x.isZero && y.isZero then true
  else x.sign == y.sign && x.exp == y.exp && x.man == y.man

/-- The operator `!=` of `T`: the negation of `==`. -/
def ne (x y : FP F) : Bool := !(x.eq y)

/-- Unary minus of `T`: the sign bit is inverted. -/
def neg (x : FP F) : FP F := { x with sign := !x.sign }

end FP

/-- Modelled from the spec: the macro `GCLIM` is not defined in these sources;
`GCLIM<T>::infinity()` is the type-indexed limits facility giving the
positive-infinity sentinel of `T`: sign clear, exponent all ones, significand
field zero. -/
def GCLIM_infinity (F : Format) : FP F where
  sign := false
  exp := 2 ^ F.ebits - 1
  man := 0
  exp_lt := Nat.sub_lt (Nat.two_pow_pos F.ebits) (by decide)
  man_lt := Nat.two_pow_pos F.mbits

variable {F : Format}

/-! ## `is_nan.hpp` -/

/-- Source `is_nan(const T x)`: `return x != x;`. -/
def is_nan (x : FP F) : Bool := x.ne x

/-! ## `is_inf.hpp` -/

/-- Source `is_neginf(const T x)`: `return x == - GCLIM<T>::infinity();`. -/
def is_neginf (x : FP F) : Bool := x.eq (GCLIM_infinity F).neg

/-- Source `is_posinf(const T x)`: `return x == GCLIM<T>::infinity();`. -/
def is_posinf (x : FP F) : Bool := x.eq (GCLIM_infinity F)

/-- Source `is_inf(const T x)`: `return is_neginf(x) || is_posinf(x);`. -/
def is_inf (x : FP F) : Bool := is_neginf x || is_posinf x

/-! ## `is_finite.hpp` -/

/-- Source `is_finite(const T x)`: `return (!is_nan(x)) && (!is_inf(x));`. -/
def is_finite (x : FP F) : Bool := (!is_nan x) && (!is_inf x)

/-! ## Variadic forms

The argument list `x, args...` of a call is the list `x :: args`.  A call with
no argument matches no overload; a call with one argument selects the
one-parameter overload (it is more specialised than the overload with a
trailing parameter pack); a call with two or more arguments selects the
overload `(const T x, const Args... args)`.  All the function templates of a
call expression are instantiated whether or not `||` and `&&` evaluate their
right operand, so a call is ill-formed as soon as a call in its body is. -/

/-- The call `f(args...)` of a function template `f` with exactly one function
parameter on an expanded parameter pack: it is well-formed only when the pack
holds exactly one argument. -/
def call_unary (f : FP F → Bool) : List (FP F) → Option Bool
  | [y] => some (f y)
  | _ => none

/-- Source `any_nan`: the one-argument overload is `return is_nan(x);`, the
variadic overload is `return is_nan(x) || any_nan(args...);`. -/
def any_nan : List (FP F) → Option Bool
  | [] => none
  | [x] => some (is_nan x)
  | x :: y :: args => (any_nan (y :: args)).map fun r => is_nan x || r

/-- Source `all_nan`: the body of the one-argument overload is the single
statement `returnis_nan(x);`, a call of the undeclared name `returnis_nan`
that no lookup resolves, and the body has no `return` statement: no call of
this overload can be instantiated.  The variadic overload is
`return is_nan(x) && all_nan(args...);`. -/
def all_nan : List (FP F) → Option Bool
  | [] => none
  | [_] => none
  | x :: y :: args => (all_nan (y :: args)).map fun r => is_nan x && r

/-- Source `any_neginf`: the one-argument overload is `return is_neginf(x);`,
the variadic overload is `return is_neginf(x) || is_neginf(args...);`, which
passes the whole pack to the one-parameter `is_neginf`. -/
def any_neginf : List (FP F) → Option Bool
  | [] => none
  | [x] => some (is_neginf x)
  | x :: y :: args => (call_unary is_neginf (y :: args)).map fun r => is_neginf x || r

/-- Source `all_neginf`: `return is_neginf(x);` and
`return is_neginf(x) && all_neginf(args...);`. -/
def all_neginf : List (FP F) → Option Bool
  | [] => none
  | [x] => some (is_neginf x)
  | x :: y :: args => (all_neginf (y :: args)).map fun r => is_neginf x && r

/-- Source `any_posinf`: `return is_posinf(x);` and
`return is_posinf(x) || any_posinf(args...);`. -/
def any_posinf : List (FP F) → Option Bool
  | [] => none
  | [x] => some (is_posinf x)
  | x :: y :: args => (any_posinf (y :: args)).map fun r => is_posinf x || r

/-- Source `all_posinf`: `return is_posinf(x);` and
`return is_posinf(x) && all_posinf(args...);`. -/
def all_posinf : List (FP F) → Option Bool
  | [] => none
  | [x] => some (is_posinf x)
  | x :: y :: args => (all_posinf (y :: args)).map fun r => is_posinf x && r

/-- Source `any_inf`: `return is_inf(x);` and
`return is_inf(x) || any_inf(args...);`. -/
def any_inf : List (FP F) → Option Bool
  | [] => none
  | [x] => some (is_inf x)
  | x :: y :: args => (any_inf (y :: args)).map fun r => is_inf x || r

/-- Source `all_inf`: `return is_inf(x);` and
`return is_inf(x) && all_inf(args...);`. -/
def all_inf : List (FP F) → Option Bool
  | [] => none
  | [x] => some (is_inf x)
  | x :: y :: args => (all_inf (y :: args)).map fun r => is_inf x && r

/-- Source `any_finite`: `return is_finite(x);` and
`return is_finite(x) || any_finite(args...);`. -/
def any_finite : List (FP F) → Option Bool
  | [] => none
  | [x] => some (is_finite x)
  | x :: y :: args => (any_finite (y :: args)).map fun r => is_finite x || r

/-- Source `all_finite`: `return is_finite(x);` and
`return is_finite(x) && all_finite(args...);`. -/
def all_finite : List (FP F) → Option Bool
  | [] => none
  | [x] => some (is_finite x)
  | x :: y :: args => (all_finite (y :: args)).map fun r => is_finite x && r

/-! ## Values of `double` used in the examples -/

/-- The format of `double`: 11 exponent bits, 52 significand bits. -/
def binary64 : Format := ⟨11, 52, by decide⟩

/-- The type `double`. -/
abbrev Double := FP binary64

/-- The value `0.0`. -/
def d_zero : Double := ⟨false, 0, 0, by decide, by decide⟩

/-- The value `-0.0`. -/
def d_negzero : Double := ⟨true, 0, 0, by decide, by decide⟩

/-- The value `1.0`. -/
def d_one : Double := ⟨false, 1023, 0, by decide, by decide⟩

/-- The value `1.5`. -/
def d_1_5 : Double := ⟨false, 1023, 2 ^ 51, by decide, by decide⟩

/-- The value `2.0`. -/
def d_two : Double := ⟨false, 1024, 0, by decide, by decide⟩

/-- The value `3.0`. -/
def d_three : Double := ⟨false, 1024, 2 ^ 51, by decide, by decide⟩

/-- The smallest positive subnormal `double`. -/
def d_denorm_min : Double := ⟨false, 0, 1, by decide, by decide⟩

/-- The value `+inf`, `std::numeric_limits<double>::infinity()`. -/
def d_inf : Double := GCLIM_infinity binary64

/-- The value `-inf`. -/
def d_neginf : Double := (GCLIM_infinity binary64).neg

/-- The quiet NaN of `double`, `std::numeric_limits<double>::quiet_NaN()`. -/
def d_nan : Double := ⟨false, 2047, 2 ^ 51, by decide, by decide⟩

/-- A signalling NaN of `double` with negative sign. -/
def d_snan : Double := ⟨true, 2047, 1, by decide, by decide⟩

/-! ## The scalar predicates on encodings -/

theorem FP.two_le_pow (F : Format) : 2 ≤ 2 ^ F.ebits := by
  have h := Nat.one_lt_two_pow (Nat.pos_iff_ne_zero.mp F.ebits_pos)
  omega

theorem is_nan_eq_isNaN (x : FP F) : is_nan x = x.isNaN := by
  unfold is_nan FP.ne FP.eq
  cases h : x.isNaN <;> simp

theorem is_posinf_eq_isPosInf (x : FP F) : is_posinf x = x.isPosInf := by
  have hE := FP.two_le_pow F
  rw [Bool.eq_iff_iff]
  simp only [is_posinf, FP.eq, FP.isNaN, FP.isZero, FP.isPosInf, FP.isInfinite, GCLIM_infinity]
  cases hs : x.sign <;> simp <;> omega

theorem is_neginf_eq_isNegInf (x : FP F) : is_neginf x = x.isNegInf := by
  have hE := FP.two_le_pow F
  rw [Bool.eq_iff_iff]
  simp only [is_neginf, FP.eq, FP.neg, FP.isNaN, FP.isZero, FP.isNegInf, FP.isInfinite,
    GCLIM_infinity]
  cases hs : x.sign <;> simp <;> omega

theorem is_inf_eq_isInfinite (x : FP F) : is_inf x = x.isInfinite := by
  rw [is_inf, is_neginf_eq_isNegInf, is_posinf_eq_isPosInf, FP.isNegInf, FP.isPosInf]
  cases x.isInfinite <;> cases x.sign <;> rfl

theorem is_finite_eq_isFinite (x : FP F) : is_finite x = x.isFinite := by
  rw [is_finite, is_nan_eq_isNaN, is_inf_eq_isInfinite, Bool.eq_iff_iff]
  simp only [FP.isNaN, FP.isInfinite, FP.isFinite]
  by_cases he : x.exp + 1 = 2 ^ F.ebits <;> by_cases hm : x.man = 0 <;> simp [he, hm]

theorem FP.isPosInf_iff_eq (x : FP F) : x.isPosInf = true ↔ x = GCLIM_infinity F := by
  have hE := FP.two_le_pow F
  constructor
  · intro h
    obtain ⟨s, e, m, he, hm⟩ := x
    simp only [FP.isPosInf, FP.isInfinite, Bool.and_eq_true, beq_iff_eq, Bool.not_eq_true'] at h
    obtain ⟨⟨h1, h2⟩, h3⟩ := h
    subst h2 h3
    have : e = 2 ^ F.ebits - 1 := by omega
    subst this
    rfl
  · intro h
    subst h
    have h1 : 2 ^ F.ebits - 1 + 1 = 2 ^ F.ebits := by omega
    simp [FP.isPosInf, FP.isInfinite, GCLIM_infinity, h1]

theorem FP.isNegInf_iff_eq (x : FP F) : x.isNegInf = true ↔ x = (GCLIM_infinity F).neg := by
  have hE := FP.two_le_pow F
  constructor
  · intro h
    obtain ⟨s, e, m, he, hm⟩ := x
    simp only [FP.isNegInf, FP.isInfinite, Bool.and_eq_true, beq_iff_eq] at h
    obtain ⟨⟨h1, h2⟩, h3⟩ := h
    subst h2 h3
    have : e = 2 ^ F.ebits - 1 := by omega
    subst this
    rfl
  · intro h
    subst h
    have h1 : 2 ^ F.ebits - 1 + 1 = 2 ^ F.ebits := by omega
    simp [FP.isNegInf, FP.isInfinite, FP.neg, GCLIM_infinity, h1]

/-- The four classes of encodings partition the values of `T`. -/
theorem FP.class_count (x : FP F) :
    x.isNaN.toNat + x.isPosInf.toNat + x.isNegInf.toNat + x.isFinite.toNat = 1 := by
  simp only [FP.isNaN, FP.isPosInf, FP.isNegInf, FP.isInfinite, FP.isFinite, bne]
  cases (x.exp + 1 == 2 ^ F.ebits) <;> cases (x.man == 0) <;> cases x.sign <;> rfl

/-! ## Scalar claims -/

/-- C1: for every value `x` of `T`, exactly one of `is_nan(x)`, `is_posinf(x)`,
`is_neginf(x)`, `is_finite(x)` is true: the number of true results among the
four is one, so at least one of them is true (exhaustive) and no two of them
are true together (pairwise exclusive). -/
theorem classification_exactly_one (x : FP F) :
    (is_nan x).toNat + (is_posinf x).toNat + (is_neginf x).toNat + (is_finite x).toNat = 1
    ∧ (is_nan x || is_posinf x || is_neginf x || is_finite x) = true
    ∧ (is_nan x && is_posinf x) = false ∧ (is_nan x && is_neginf x) = false
    ∧ (is_nan x && is_finite x) = false ∧ (is_posinf x && is_neginf x) = false
    ∧ (is_posinf x && is_finite x) = false ∧ (is_neginf x && is_finite x) = false := by
  have h : (is_nan x).toNat + (is_posinf x).toNat + (is_neginf x).toNat
      + (is_finite x).toNat = 1 := by
    rw [is_nan_eq_isNaN, is_posinf_eq_isPosInf, is_neginf_eq_isNegInf, is_finite_eq_isFinite]
    exact FP.class_count x
  revert h
  cases is_nan x <;> cases is_posinf x <;> cases is_neginf x <;> cases is_finite x <;> decide

/-- C2: `is_nan(x)`, computed as `x != x`, is true if and only if the encoding
of `x` is a NaN; it is true on the quiet and on a signalling NaN of `double`
and false on `0.0`, `1.5`, `+inf` and `-inf`. -/
theorem is_nan_iff_nan (x : FP F) :
    is_nan x = x.ne x ∧ (is_nan x = true ↔ x.isNaN = true)
    ∧ is_nan d_nan = true ∧ is_nan d_snan = true
    ∧ is_nan d_zero = false ∧ is_nan d_1_5 = false
    ∧ is_nan d_inf = false ∧ is_nan d_neginf = false := by
  refine ⟨rfl, by rw [is_nan_eq_isNaN], ?_, ?_, ?_, ?_, ?_, ?_⟩ <;> decide

/-- C3: `is_posinf(x)` is true iff `x` is `+inf` and `is_neginf(x)` is true iff
`x` is `-inf` (the negated sentinel); so `is_posinf(+inf)`, `is_neginf(-inf)`
are true, `is_posinf(-inf)`, `is_neginf(+inf)` are false, and both are false
on every finite value (zero included) and on every NaN. -/
theorem is_posinf_is_neginf_spec (x : FP F) :
    (is_posinf x = true ↔ x = GCLIM_infinity F)
    ∧ (is_neginf x = true ↔ x = (GCLIM_infinity F).neg)
    ∧ is_posinf (GCLIM_infinity F) = true
    ∧ is_posinf (GCLIM_infinity F).neg = false
    ∧ is_neginf (GCLIM_infinity F).neg = true
    ∧ is_neginf (GCLIM_infinity F) = false
    ∧ (x.isFinite = true → is_posinf x = false ∧ is_neginf x = false)
    ∧ (x.isZero = true → is_posinf x = false ∧ is_neginf x = false)
    ∧ (x.isNaN = true → is_posinf x = false ∧ is_neginf x = false) := by
  have hE := FP.two_le_pow F
  have hp : ∀ y : FP F, is_posinf y = true ↔ y = GCLIM_infinity F := fun y => by
    rw [is_posinf_eq_isPosInf, FP.isPosInf_iff_eq]
  have hn : ∀ y : FP F, is_neginf y = true ↔ y = (GCLIM_infinity F).neg := fun y => by
    rw [is_neginf_eq_isNegInf, FP.isNegInf_iff_eq]
  have hne : (GCLIM_infinity F).neg ≠ GCLIM_infinity F := by
    intro h
    have := congrArg FP.sign h
    simp [FP.neg, GCLIM_infinity] at this
  refine ⟨hp x, hn x, (hp _).2 rfl, ?_, (hn _).2 rfl, ?_, ?_, ?_, ?_⟩
  · exact Bool.eq_false_iff.2 fun h => hne ((hp _).1 h)
  · exact Bool.eq_false_iff.2 fun h => hne ((hn _).1 h).symm
  · intro h
    rw [is_posinf_eq_isPosInf, is_neginf_eq_isNegInf]
    simp only [FP.isFinite, bne_iff_ne, ne_eq] at h
    simp [FP.isPosInf, FP.isNegInf, FP.isInfinite, h]
  · intro h
    rw [is_posinf_eq_isPosInf, is_neginf_eq_isNegInf]
    simp only [FP.isZero, Bool.and_eq_true, beq_iff_eq] at h
    have : x.exp + 1 ≠ 2 ^ F.ebits := by omega
    simp [FP.isPosInf, FP.isNegInf, FP.isInfinite, this]
  · intro h
    rw [is_posinf_eq_isPosInf, is_neginf_eq_isNegInf]
    simp only [FP.isNaN, Bool.and_eq_true, beq_iff_eq, bne_iff_ne, ne_eq] at h
    simp [FP.isPosInf, FP.isNegInf, FP.isInfinite, h.2]

/-- Instance of C3 at `double`: `1.0`, `0.0` and the quiet NaN are neither
`+inf` nor `-inf`. -/
theorem is_posinf_is_neginf_spec_witness :
    (d_one.isFinite = true ∧ is_posinf d_one = false ∧ is_neginf d_one = false)
    ∧ (d_zero.isZero = true ∧ is_posinf d_zero = false ∧ is_neginf d_zero = false)
    ∧ (d_nan.isNaN = true ∧ is_posinf d_nan = false ∧ is_neginf d_nan = false) :=
  ⟨⟨by decide, (is_posinf_is_neginf_spec d_one).2.2.2.2.2.2.1 (by decide)⟩,
   ⟨by decide, (is_posinf_is_neginf_spec d_zero).2.2.2.2.2.2.2.1 (by decide)⟩,
   ⟨by decide, (is_posinf_is_neginf_spec d_nan).2.2.2.2.2.2.2.2 (by decide)⟩⟩

/-- C4: `is_finite(x)` equals `!is_nan(x) && !is_inf(x)`; on every finite
encoding, zeros and subnormals included, `is_finite` is true and `is_nan`,
`is_inf` are false; `is_finite` is false on every NaN and on `+inf`, `-inf`. -/
theorem is_finite_spec (x : FP F) :
    is_finite x = (!is_nan x && !is_inf x)
    ∧ (x.isFinite = true → is_finite x = true ∧ is_nan x = false ∧ is_inf x = false)
    ∧ (x.isZero = true → is_finite x = true)
    ∧ (x.isSubnormal = true → is_finite x = true)
    ∧ (x.isNaN = true → is_finite x = false)
    ∧ is_finite (GCLIM_infinity F) = false
    ∧ is_finite (GCLIM_infinity F).neg = false := by
  have hE := FP.two_le_pow F
  have h1 : 2 ^ F.ebits - 1 + 1 = 2 ^ F.ebits := by omega
  refine ⟨rfl, ?_, ?_, ?_, ?_, ?_, ?_⟩
  · intro h
    rw [is_finite_eq_isFinite, is_nan_eq_isNaN, is_inf_eq_isInfinite]
    simp only [FP.isFinite, bne_iff_ne, ne_eq] at h
    simp [FP.isFinite, FP.isNaN, FP.isInfinite, h]
  · intro h
    rw [is_finite_eq_isFinite]
    simp only [FP.isZero, Bool.and_eq_true, beq_iff_eq] at h
    have : x.exp + 1 ≠ 2 ^ F.ebits := by omega
    simp [FP.isFinite, this]
  · intro h
    rw [is_finite_eq_isFinite]
    simp only [FP.isSubnormal, Bool.and_eq_true, beq_iff_eq] at h
    have : x.exp + 1 ≠ 2 ^ F.ebits := by omega
    simp [FP.isFinite, this]
  · intro h
    rw [is_finite_eq_isFinite]
    simp only [FP.isNaN, Bool.and_eq_true, beq_iff_eq] at h
    simp [FP.isFinite, h.1]
  · rw [is_finite_eq_isFinite]
    simp [FP.isFinite, GCLIM_infinity, h1]
  · rw [is_finite_eq_isFinite]
    simp [FP.isFinite, FP.neg, GCLIM_infinity, h1]

/-- Instance of C4 at `double`: `1.5` is finite, `-0.0` is a zero, the smallest
subnormal is subnormal and the signalling NaN is a NaN. -/
theorem is_finite_spec_witness :
    (d_1_5.isFinite = true ∧ is_finite d_1_5 = true ∧ is_nan d_1_5 = false
      ∧ is_inf d_1_5 = false)
    ∧ (d_negzero.isZero = true ∧ is_finite d_negzero = true)
    ∧ (d_denorm_min.isSubnormal = true ∧ is_finite d_denorm_min = true)
    ∧ (d_snan.isNaN = true ∧ is_finite d_snan = false) :=
  ⟨⟨by decide, (is_finite_spec d_1_5).2.1 (by decide)⟩,
   ⟨by decide, (is_finite_spec d_negzero).2.2.1 (by decide)⟩,
   ⟨by decide, (is_finite_spec d_denorm_min).2.2.2.1 (by decide)⟩,
   ⟨by decide, (is_finite_spec d_snan).2.2.2.2.1 (by decide)⟩⟩

/-- C5: `is_inf(x)` equals `is_posinf(x) || is_neginf(x)`; it is true exactly
on `+inf` and `-inf`, and false on every NaN. -/
theorem is_inf_spec (x : FP F) :
    is_inf x = (is_posinf x || is_neginf x)
    ∧ (is_inf x = true ↔ x = GCLIM_infinity F ∨ x = (GCLIM_infinity F).neg)
    ∧ (x.isNaN = true → is_inf x = false)
    ∧ is_inf d_nan = false ∧ is_inf d_inf = true ∧ is_inf d_neginf = true := by
  refine ⟨Bool.or_comm _ _, ?_, ?_, by decide, by decide, by decide⟩
  · rw [is_inf, Bool.or_eq_true, is_neginf_eq_isNegInf, is_posinf_eq_isPosInf,
      FP.isNegInf_iff_eq, FP.isPosInf_iff_eq, or_comm]
  · intro h
    rw [is_inf_eq_isInfinite]
    simp only [FP.isNaN, Bool.and_eq_true, bne_iff_ne, ne_eq] at h
    simp [FP.isInfinite, h.2]

/-- Instance of C5 at the signalling NaN of `double`. -/
theorem is_inf_spec_witness : d_snan.isNaN = true ∧ is_inf d_snan = false :=
  ⟨by decide, (is_inf_spec d_snan).2.2.1 (by decide)⟩

/-! ## The variadic recursion pattern -/

/-- A form with base case `p` that ORs along the argument list returns the
disjunction of `p` over the arguments. -/
theorem any_form (p : FP F → Bool) (f : List (FP F) → Option Bool)
    (h1 : ∀ x, f [x] = some (p x))
    (h2 : ∀ x y args, f (x :: y :: args) = (f (y :: args)).map fun r => p x || r)
    (x : FP F) (args : List (FP F)) : f (x :: args) = some ((x :: args).any p) := by
  induction args generalizing x with
  | nil => simp [h1]
  | cons y rest ih => rw [h2, ih y]; simp

/-- A form with base case `p` that ANDs along the argument list returns the
conjunction of `p` over the arguments. -/
theorem all_form (p : FP F → Bool) (f : List (FP F) → Option Bool)
    (h1 : ∀ x, f [x] = some (p x))
    (h2 : ∀ x y args, f (x :: y :: args) = (f (y :: args)).map fun r => p x && r)
    (x : FP F) (args : List (FP F)) : f (x :: args) = some ((x :: args).all p) := by
  induction args generalizing x with
  | nil => simp [h1]
  | cons y rest ih => rw [h2, ih y]; simp

theorem any_nan_eq (x : FP F) (args : List (FP F)) :
    any_nan (x :: args) = some ((x :: args).any is_nan) :=
  any_form is_nan any_nan (fun _ => rfl) (fun _ _ _ => rfl) x args

theorem any_finite_eq (x : FP F) (args : List (FP F)) :
    any_finite (x :: args) = some ((x :: args).any is_finite) :=
  any_form is_finite any_finite (fun _ => rfl) (fun _ _ _ => rfl) x args

theorem all_finite_eq (x : FP F) (args : List (FP F)) :
    all_finite (x :: args) = some ((x :: args).all is_finite) :=
  all_form is_finite all_finite (fun _ => rfl) (fun _ _ _ => rfl) x args

theorem all_nan_eq_none (xs : List (FP F)) : all_nan xs = none := by
  induction xs with
  | nil => rfl
  | cons x rest ih =>
    cases rest with
    | nil => rfl
    | cons y args => simp only [all_nan, ih, Option.map_none']

theorem any_neginf_one (x : FP F) : any_neginf [x] = some (is_neginf x) := rfl

theorem any_neginf_two (x y : FP F) :
    any_neginf [x, y] = some (is_neginf x || is_neginf y) := rfl

theorem any_neginf_three (x y z : FP F) (rest : List (FP F)) :
    any_neginf (x :: y :: z :: rest) = none := rfl

theorem is_finite_iff (a : FP F) :
    is_finite a = true ↔ a.isNaN = false ∧ a.isInfinite = false := by
  rw [is_finite, is_nan_eq_isNaN, is_inf_eq_isInfinite]
  cases a.isNaN <;> cases a.isInfinite <;> simp

/-! ## Variadic claims -/

/-- C6 (defect of the source): the claim says `any_neginf` returns, for every
argument list of three or more values, whether some argument is `-inf`, and
that `any_neginf(1.0, 2.0, -inf)` is true.  The variadic overload passes the
whole remaining pack to the one-parameter `is_neginf`, so every call with
three or more arguments is ill-formed and returns nothing. -/
theorem any_neginf_three_args_no_value :
    any_neginf [d_one, d_two, d_neginf] = none
    ∧ any_neginf [d_one, d_two, d_three] = none
    ∧ (∀ (G : Format) (x y z : FP G) (rest : List (FP G)),
        any_neginf (x :: y :: z :: rest) = none)
    ∧ (∀ (G : Format) (x y : FP G),
        any_neginf [x] = some (is_neginf x)
        ∧ any_neginf [x, y] = some (is_neginf x || is_neginf y)) :=
  ⟨rfl, rfl, fun _ x y z rest => any_neginf_three x y z rest,
    fun _ x y => ⟨any_neginf_one x, any_neginf_two x y⟩⟩

/-- C7 (defect of the source): the claim says `all_nan` returns whether every
argument is NaN and that `all_nan(NaN, NaN)` is true.  The one-argument
overload, which every call of `all_nan` ends in, has the body
`returnis_nan(x);` and returns nothing, so no call of `all_nan` has a value. -/
theorem all_nan_no_value :
    all_nan [d_nan, d_nan] = none
    ∧ all_nan [d_one, d_two, d_nan] = none
    ∧ all_nan [d_nan] = none
    ∧ (∀ (G : Format) (xs : List (FP G)), all_nan xs = none) :=
  ⟨rfl, rfl, rfl, fun _ xs => all_nan_eq_none xs⟩

/-- C8: for every non-empty argument list, `any_nan` returns a boolean that is
true if and only if at least one argument is a NaN; on one argument it returns
`is_nan(x)`, on more it returns `is_nan(x) || any_nan(rest...)`; and
`any_nan(1.0, 2.0, NaN)` is true. -/
theorem any_nan_spec (x : FP F) (args : List (FP F)) :
    (∃ b, any_nan (x :: args) = some b ∧ (b = true ↔ ∃ a ∈ x :: args, a.isNaN = true))
    ∧ any_nan [x] = some (is_nan x)
    ∧ (∀ y, any_nan (y :: x :: args) = (any_nan (x :: args)).map fun r => is_nan y || r)
    ∧ any_nan [d_one, d_two, d_nan] = some true := by
  refine ⟨⟨_, any_nan_eq x args, ?_⟩, rfl, fun _ => rfl, by decide⟩
  rw [List.any_eq_true]
  simp only [is_nan_eq_isNaN]

/-- C9: for every non-empty argument list, `all_finite` returns a boolean that
is true if and only if every argument is finite, that is neither a NaN nor an
infinity; `all_finite(+inf, NaN, 3.0)` is false and `all_finite(1.0, 2.0, 3.0)`
is true. -/
theorem all_finite_spec (x : FP F) (args : List (FP F)) :
    (∃ b, all_finite (x :: args) = some b
      ∧ (b = true ↔ ∀ a ∈ x :: args, a.isNaN = false ∧ a.isInfinite = false))
    ∧ all_finite [x] = some (is_finite x)
    ∧ (∀ y, all_finite (y :: x :: args)
        = (all_finite (x :: args)).map fun r => is_finite y && r)
    ∧ all_finite [d_inf, d_nan, d_three] = some false
    ∧ all_finite [d_one, d_two, d_three] = some true := by
  refine ⟨⟨_, all_finite_eq x args, ?_⟩, rfl, fun _ => rfl, by decide, by decide⟩
  rw [List.all_eq_true]
  simp only [is_finite_iff]

/-- C10: for every non-empty argument list, `any_finite` returns a boolean that
is true if and only if at least one argument is finite, that is neither a NaN
nor an infinity; `any_finite(+inf, NaN, 3.0)` is true, and `any_finite` is
false when every argument is a NaN or an infinity. -/
theorem any_finite_spec (x : FP F) (args : List (FP F)) :
    (∃ b, any_finite (x :: args) = some b
      ∧ (b = true ↔ ∃ a ∈ x :: args, a.isNaN = false ∧ a.isInfinite = false))
    ∧ any_finite [x] = some (is_finite x)
    ∧ (∀ y, any_finite (y :: x :: args)
        = (any_finite (x :: args)).map fun r => is_finite y || r)
    ∧ any_finite [d_inf, d_nan, d_three] = some true
    ∧ ((∀ a ∈ x :: args, a.isNaN = true ∨ a.isInfinite = true)
        → any_finite (x :: args) = some false) := by
  refine ⟨⟨_, any_finite_eq x args, ?_⟩, rfl, fun _ => rfl, by decide, ?_⟩
  · rw [List.any_eq_true]
    simp only [is_finite_iff]
  · intro h
    rw [any_finite_eq, Option.some_inj, Bool.eq_false_iff]
    intro hb
    rw [List.any_eq_true] at hb
    obtain ⟨a, ha, hf⟩ := hb
    rw [is_finite_iff] at hf
    rcases h a ha with h1 | h1 <;> simp [h1] at hf

/-- Instance of C10 at `double`: on a NaN and the two infinities `any_finite`
returns false. -/
theorem any_finite_spec_witness :
    (∀ a ∈ [d_nan, d_inf, d_neginf], a.isNaN = true ∨ a.isInfinite = true)
    ∧ any_finite [d_nan, d_inf, d_neginf] = some false :=
  ⟨by decide, (any_finite_spec d_nan [d_inf, d_neginf]).2.2.2.2 (by decide)⟩

/-! ## The remaining aggregates of `is_inf.hpp` -/

theorem any_inf_eq (x : FP F) (args : List (FP F)) :
    any_inf (x :: args) = some ((x :: args).any is_inf) :=
  any_form is_inf any_inf (fun _ => rfl) (fun _ _ _ => rfl) x args

theorem all_inf_eq (x : FP F) (args : List (FP F)) :
    all_inf (x :: args) = some ((x :: args).all is_inf) :=
  all_form is_inf all_inf (fun _ => rfl) (fun _ _ _ => rfl) x args

theorem all_neginf_eq (x : FP F) (args : List (FP F)) :
    all_neginf (x :: args) = some ((x :: args).all is_neginf) :=
  all_form is_neginf all_neginf (fun _ => rfl) (fun _ _ _ => rfl) x args

theorem any_posinf_eq (x : FP F) (args : List (FP F)) :
    any_posinf (x :: args) = some ((x :: args).any is_posinf) :=
  any_form is_posinf any_posinf (fun _ => rfl) (fun _ _ _ => rfl) x args

theorem all_posinf_eq (x : FP F) (args : List (FP F)) :
    all_posinf (x :: args) = some ((x :: args).all is_posinf) :=
  all_form is_posinf all_posinf (fun _ => rfl) (fun _ _ _ => rfl) x args

theorem is_posinf_iff_eq (a : FP F) : is_posinf a = true ↔ a = GCLIM_infinity F := by
  rw [is_posinf_eq_isPosInf, FP.isPosInf_iff_eq]

theorem is_neginf_iff_eq (a : FP F) : is_neginf a = true ↔ a = (GCLIM_infinity F).neg := by
  rw [is_neginf_eq_isNegInf, FP.isNegInf_iff_eq]

theorem is_inf_iff_eq (a : FP F) :
    is_inf a = true ↔ a = GCLIM_infinity F ∨ a = (GCLIM_infinity F).neg := by
  rw [is_inf, Bool.or_eq_true, is_neginf_iff_eq, is_posinf_iff_eq, or_comm]

/-- C11: for every non-empty argument list, `any_inf` returns a boolean that is
true if and only if at least one argument is `+inf` or `-inf`, and `all_inf`
returns a boolean that is true if and only if every argument is `+inf` or
`-inf`; `any_inf` ORs and `all_inf` ANDs `is_inf` over the list. -/
theorem any_inf_all_inf_spec (x : FP F) (args : List (FP F)) :
    (∃ b, any_inf (x :: args) = some b
      ∧ (b = true ↔ ∃ a ∈ x :: args, a = GCLIM_infinity F ∨ a = (GCLIM_infinity F).neg))
    ∧ (∃ b, all_inf (x :: args) = some b
      ∧ (b = true ↔ ∀ a ∈ x :: args, a = GCLIM_infinity F ∨ a = (GCLIM_infinity F).neg))
    ∧ any_inf (x :: args) = some ((x :: args).any is_inf)
    ∧ all_inf (x :: args) = some ((x :: args).all is_inf)
    ∧ any_inf [d_one, d_neginf, d_nan] = some true
    ∧ any_inf [d_one, d_nan] = some false
    ∧ all_inf [d_inf, d_neginf] = some true
    ∧ all_inf [d_inf, d_one] = some false := by
  refine ⟨⟨_, any_inf_eq x args, ?_⟩, ⟨_, all_inf_eq x args, ?_⟩, any_inf_eq x args,
    all_inf_eq x args, by decide, by decide, by decide, by decide⟩
  · rw [List.any_eq_true]
    simp only [is_inf_iff_eq]
  · rw [List.all_eq_true]
    simp only [is_inf_iff_eq]

/-- C12: for every non-empty argument list, `all_neginf` returns a boolean that
is true iff every argument is `-inf`, `any_posinf` one that is true iff at
least one argument is `+inf`, and `all_posinf` one that is true iff every
argument is `+inf`: each is the lifting of its one-argument predicate. -/
theorem signed_inf_aggregates_spec (x : FP F) (args : List (FP F)) :
    (∃ b, all_neginf (x :: args) = some b
      ∧ (b = true ↔ ∀ a ∈ x :: args, a = (GCLIM_infinity F).neg))
    ∧ (∃ b, any_posinf (x :: args) = some b
      ∧ (b = true ↔ ∃ a ∈ x :: args, a = GCLIM_infinity F))
    ∧ (∃ b, all_posinf (x :: args) = some b
      ∧ (b = true ↔ ∀ a ∈ x :: args, a = GCLIM_infinity F))
    ∧ all_neginf (x :: args) = some ((x :: args).all is_neginf)
    ∧ any_posinf (x :: args) = some ((x :: args).any is_posinf)
    ∧ all_posinf (x :: args) = some ((x :: args).all is_posinf)
    ∧ all_neginf [d_neginf, d_neginf, d_neginf] = some true
    ∧ all_neginf [d_neginf, d_inf] = some false
    ∧ any_posinf [d_one, d_nan, d_inf] = some true
    ∧ any_posinf [d_neginf, d_one] = some false
    ∧ all_posinf [d_inf, d_inf, d_inf] = some true
    ∧ all_posinf [d_inf, d_neginf] = some false := by
  refine ⟨⟨_, all_neginf_eq x args, ?_⟩, ⟨_, any_posinf_eq x args, ?_⟩,
    ⟨_, all_posinf_eq x args, ?_⟩, all_neginf_eq x args, any_posinf_eq x args,
    all_posinf_eq x args, by decide, by decide, by decide, by decide, by decide, by decide⟩
  · rw [List.all_eq_true]
    simp only [is_neginf_iff_eq]
  · rw [List.any_eq_true]
    simp only [is_posinf_iff_eq]
  · rw [List.all_eq_true]
    simp only [is_posinf_iff_eq]

/-! ## Reordering the arguments -/

theorem perm_any_eq (p : FP F → Bool) {xs ys : List (FP F)} (h : ys.Perm xs) :
    ys.any p = xs.any p := by
  rw [Bool.eq_iff_iff, List.any_eq_true, List.any_eq_true]
  exact ⟨fun ⟨a, ha, hp⟩ => ⟨a, h.mem_iff.1 ha, hp⟩, fun ⟨a, ha, hp⟩ => ⟨a, h.mem_iff.2 ha, hp⟩⟩

theorem perm_all_eq (p : FP F → Bool) {xs ys : List (FP F)} (h : ys.Perm xs) :
    ys.all p = xs.all p := by
  rw [Bool.eq_iff_iff, List.all_eq_true, List.all_eq_true]
  exact ⟨fun hy a ha => hy a (h.mem_iff.2 ha), fun hx a ha => hx a (h.mem_iff.1 ha)⟩

/-- A form that returns the disjunction of `p` over every non-empty argument
list returns the same boolean on a reordered list. -/
theorem any_form_perm (p : FP F → Bool) (f : List (FP F) → Option Bool)
    (hf : ∀ x args, f (x :: args) = some ((x :: args).any p))
    {xs ys : List (FP F)} (hne : xs ≠ []) (h : ys.Perm xs) :
    ∃ b, f xs = some b ∧ f ys = some b := by
  have hy : ys ≠ [] := fun e => hne (List.Perm.eq_nil (e ▸ h.symm))
  obtain ⟨x, args, rfl⟩ := List.exists_cons_of_ne_nil hne
  obtain ⟨y, rest, rfl⟩ := List.exists_cons_of_ne_nil hy
  exact ⟨_, hf x args, by rw [hf y rest, perm_any_eq p h]⟩

/-- A form that returns the conjunction of `p` over every non-empty argument
list returns the same boolean on a reordered list. -/
theorem all_form_perm (p : FP F → Bool) (f : List (FP F) → Option Bool)
    (hf : ∀ x args, f (x :: args) = some ((x :: args).all p))
    {xs ys : List (FP F)} (hne : xs ≠ []) (h : ys.Perm xs) :
    ∃ b, f xs = some b ∧ f ys = some b := by
  have hy : ys ≠ [] := fun e => hne (List.Perm.eq_nil (e ▸ h.symm))
  obtain ⟨x, args, rfl⟩ := List.exists_cons_of_ne_nil hne
  obtain ⟨y, rest, rfl⟩ := List.exists_cons_of_ne_nil hy
  exact ⟨_, hf x args, by rw [hf y rest, perm_all_eq p h]⟩

/-- The call `any_neginf` has a value exactly on one and on two arguments,
where it is the disjunction of `is_neginf` over the arguments. -/
theorem any_neginf_eq_ite (l : List (FP F)) :
    any_neginf l
      = if l.length = 1 ∨ l.length = 2 then some (l.any is_neginf) else none := by
  match l with
  | [] => rfl
  | [x] => simp [any_neginf]
  | [x, y] => simp [any_neginf, call_unary]
  | x :: y :: z :: rest => simp [any_neginf, call_unary]

theorem any_neginf_perm {xs ys : List (FP F)} (h : ys.Perm xs) :
    any_neginf ys = any_neginf xs := by
  rw [any_neginf_eq_ite, any_neginf_eq_ite, h.length_eq, perm_any_eq is_neginf h]

/-- C13: for each of the ten aggregate forms and every non-empty argument
list `xs`, the call on any permutation `ys` of `xs` has the same result as the
call on `xs`: reordering the arguments never changes the boolean returned.
For `any_nan`, `all_neginf`, `any_posinf`, `all_posinf`, `any_inf`, `all_inf`,
`any_finite` and `all_finite` both calls return one and the same boolean. -/
theorem reordering_preserves_result (xs ys : List (FP F)) (hne : xs ≠ [])
    (h : ys.Perm xs) :
    any_nan ys = any_nan xs ∧ all_nan ys = all_nan xs
    ∧ any_neginf ys = any_neginf xs ∧ all_neginf ys = all_neginf xs
    ∧ any_posinf ys = any_posinf xs ∧ all_posinf ys = all_posinf xs
    ∧ any_inf ys = any_inf xs ∧ all_inf ys = all_inf xs
    ∧ any_finite ys = any_finite xs ∧ all_finite ys = all_finite xs
    ∧ (∃ b, any_nan xs = some b ∧ any_nan ys = some b)
    ∧ (∃ b, all_neginf xs = some b ∧ all_neginf ys = some b)
    ∧ (∃ b, any_posinf xs = some b ∧ any_posinf ys = some b)
    ∧ (∃ b, all_posinf xs = some b ∧ all_posinf ys = some b)
    ∧ (∃ b, any_inf xs = some b ∧ any_inf ys = some b)
    ∧ (∃ b, all_inf xs = some b ∧ all_inf ys = some b)
    ∧ (∃ b, any_finite xs = some b ∧ any_finite ys = some b)
    ∧ (∃ b, all_finite xs = some b ∧ all_finite ys = some b) := by
  have e1 := any_form_perm is_nan any_nan any_nan_eq hne h
  have e2 := all_form_perm is_neginf all_neginf all_neginf_eq hne h
  have e3 := any_form_perm is_posinf any_posinf any_posinf_eq hne h
  have e4 := all_form_perm is_posinf all_posinf all_posinf_eq hne h
  have e5 := any_form_perm is_inf any_inf any_inf_eq hne h
  have e6 := all_form_perm is_inf all_inf all_inf_eq hne h
  have e7 := any_form_perm is_finite any_finite any_finite_eq hne h
  have e8 := all_form_perm is_finite all_finite all_finite_eq hne h
  have eqv : ∀ (f : List (FP F) → Option Bool),
      (∃ b, f xs = some b ∧ f ys = some b) → f ys = f xs :=
    fun f ⟨_, hx, hy⟩ => hy.trans hx.symm
  exact ⟨eqv _ e1, by rw [all_nan_eq_none, all_nan_eq_none], any_neginf_perm h, eqv _ e2,
    eqv _ e3, eqv _ e4, eqv _ e5, eqv _ e6, eqv _ e7, eqv _ e8,
    e1, e2, e3, e4, e5, e6, e7, e8⟩

/-- Instance of C13 at `double`: `(3.0, +inf, NaN)` is a reordering of
`(+inf, NaN, 3.0)`; `any_finite` returns true and `all_finite` false on both,
and `any_neginf(-inf, 1.0)` and `any_neginf(1.0, -inf)` both return true. -/
theorem reordering_preserves_result_witness :
    ([d_inf, d_nan, d_three] ≠ [] ∧ [d_three, d_inf, d_nan].Perm [d_inf, d_nan, d_three]
      ∧ any_finite [d_three, d_inf, d_nan] = any_finite [d_inf, d_nan, d_three]
      ∧ any_finite [d_inf, d_nan, d_three] = some true
      ∧ all_finite [d_three, d_inf, d_nan] = all_finite [d_inf, d_nan, d_three]
      ∧ all_finite [d_inf, d_nan, d_three] = some false)
    ∧ ([d_neginf, d_one] ≠ [] ∧ [d_one, d_neginf].Perm [d_neginf, d_one]
      ∧ any_neginf [d_one, d_neginf] = any_neginf [d_neginf, d_one]
      ∧ any_neginf [d_neginf, d_one] = some true) :=
  have h3 : [d_three, d_inf, d_nan].Perm [d_inf, d_nan, d_three] :=
    (List.perm_append_comm : ([d_three] ++ [d_inf, d_nan]).Perm ([d_inf, d_nan] ++ [d_three]))
  have h2 : [d_one, d_neginf].Perm [d_neginf, d_one] := List.Perm.swap d_neginf d_one []
  have r3 := reordering_preserves_result [d_inf, d_nan, d_three] [d_three, d_inf, d_nan]
    (List.cons_ne_nil _ _) h3
  have r2 := reordering_preserves_result [d_neginf, d_one] [d_one, d_neginf]
    (List.cons_ne_nil _ _) h2
  ⟨⟨List.cons_ne_nil _ _, h3, r3.2.2.2.2.2.2.2.2.1, by decide, r3.2.2.2.2.2.2.2.2.2.1,
      by decide⟩,
    ⟨List.cons_ne_nil _ _, h2, r2.2.2.1, by decide⟩⟩

/-- C14 (defect of the source): the claim says that on one argument every
aggregate agrees with its scalar predicate, `any_P(x) = all_P(x) = is_P(x)`.
`all_nan(NaN)` returns nothing (no one-argument call of `all_nan` does); the
other nine one-argument forms do return `is_P(x)`. -/
theorem all_nan_one_argument_no_value :
    all_nan [d_nan] = none ∧ any_nan [d_nan] = some true ∧ is_nan d_nan = true
    ∧ (∀ (G : Format) (x : FP G),
        all_nan [x] = none
        ∧ any_nan [x] = some (is_nan x)
        ∧ any_neginf [x] = some (is_neginf x) ∧ all_neginf [x] = some (is_neginf x)
        ∧ any_posinf [x] = some (is_posinf x) ∧ all_posinf [x] = some (is_posinf x)
        ∧ any_inf [x] = some (is_inf x) ∧ all_inf [x] = some (is_inf x)
        ∧ any_finite [x] = some (is_finite x) ∧ all_finite [x] = some (is_finite x)) :=
  ⟨rfl, by decide, by decide, fun _ _ => ⟨rfl, rfl, rfl, rfl, rfl, rfl, rfl, rfl, rfl, rfl⟩⟩

/-- C15 (defect of the source): the claim says every predicate returns a
boolean on every input and every aggregate on every non-empty argument list.
The five scalar predicates and eight of the aggregates do; `all_nan(NaN, NaN)`
returns nothing (no call of `all_nan` does) and `any_neginf(1.0, 2.0, -inf)`
returns nothing (no call of `any_neginf` with three or more arguments
does). -/
theorem aggregates_without_value :
    all_nan [d_nan, d_nan] = none
    ∧ any_neginf [d_one, d_two, d_neginf] = none
    ∧ (∀ (G : Format) (xs : List (FP G)), (all_nan xs).isSome = false)
    ∧ (∀ (G : Format) (x y z : FP G) (rest : List (FP G)),
        (any_neginf (x :: y :: z :: rest)).isSome = false)
    ∧ (∀ (G : Format) (x : FP G),
        (∃ b, is_nan x = b) ∧ (∃ b, is_neginf x = b) ∧ (∃ b, is_posinf x = b)
        ∧ (∃ b, is_inf x = b) ∧ (∃ b, is_finite x = b))
    ∧ (∀ (G : Format) (x y : FP G),
        (any_neginf [x]).isSome = true ∧ (any_neginf [x, y]).isSome = true)
    ∧ (∀ (G : Format) (x : FP G) (args : List (FP G)),
        (any_nan (x :: args)).isSome = true
        ∧ (all_neginf (x :: args)).isSome = true
        ∧ (any_posinf (x :: args)).isSome = true
        ∧ (all_posinf (x :: args)).isSome = true
        ∧ (any_inf (x :: args)).isSome = true
        ∧ (all_inf (x :: args)).isSome = true
        ∧ (any_finite (x :: args)).isSome = true
        ∧ (all_finite (x :: args)).isSome = true) := by
  refine ⟨rfl, rfl, fun _ xs => by rw [all_nan_eq_none]; rfl,
    fun _ x y z rest => by rw [any_neginf_three]; rfl,
    fun _ x => ⟨⟨_, rfl⟩, ⟨_, rfl⟩, ⟨_, rfl⟩, ⟨_, rfl⟩, ⟨_, rfl⟩⟩,
    fun _ x y => ⟨rfl, rfl⟩, fun _ x args => ?_⟩
  rw [any_nan_eq, all_neginf_eq, any_posinf_eq, all_posinf_eq, any_inf_eq, all_inf_eq,
    any_finite_eq, all_finite_eq]
  exact ⟨rfl, rfl, rfl, rfl, rfl, rfl, rfl, rfl⟩

/-! ## Relations between the aggregates -/

theorem list_all_finite_eq (l : List (FP F)) :
    l.all is_finite = !(l.any is_nan || l.any is_inf) := by
  induction l with
  | nil => rfl
  | cons a rest ih =>
    rw [List.all_cons, List.any_cons, List.any_cons, ih, is_finite]
    cases is_nan a <;> cases is_inf a <;> cases rest.any is_nan <;> cases rest.any is_inf <;> rfl

theorem list_any_inf_eq (l : List (FP F)) :
    l.any is_inf = (l.any is_neginf || l.any is_posinf) := by
  induction l with
  | nil => rfl
  | cons a rest ih =>
    rw [List.any_cons, List.any_cons, List.any_cons, ih, is_inf]
    cases is_neginf a <;> cases is_posinf a <;> cases rest.any is_neginf <;>
      cases rest.any is_posinf <;> rfl

theorem is_posinf_and_is_neginf (a : FP F) : (is_posinf a && is_neginf a) = false := by
  rw [is_posinf_eq_isPosInf, is_neginf_eq_isNegInf, FP.isPosInf, FP.isNegInf]
  cases a.isInfinite <;> cases a.sign <;> rfl

theorem is_inf_and_is_finite (a : FP F) : (is_inf a && is_finite a) = false := by
  rw [is_finite]
  cases is_nan a <;> cases is_inf a <;> rfl

theorem is_nan_or_is_inf_or_is_finite (a : FP F) :
    (is_nan a || is_inf a || is_finite a) = true := by
  rw [is_finite]
  cases is_nan a <;> cases is_inf a <;> rfl

/-- C16: for every non-empty argument list, `all_finite`, `any_nan` and
`any_inf` return booleans and the first is the negation of the disjunction of
the other two: all arguments are finite exactly when no argument is NaN and no
argument is infinite. -/
theorem all_finite_eq_not_any_nan_or_any_inf (x : FP F) (args : List (FP F)) :
    (∃ f n i, all_finite (x :: args) = some f ∧ any_nan (x :: args) = some n
      ∧ any_inf (x :: args) = some i ∧ f = !(n || i))
    ∧ all_finite [d_one, d_two, d_three] = some true
    ∧ any_nan [d_one, d_two, d_three] = some false
    ∧ any_inf [d_one, d_two, d_three] = some false
    ∧ all_finite [d_inf, d_nan, d_three] = some false
    ∧ any_nan [d_inf, d_nan, d_three] = some true
    ∧ any_inf [d_inf, d_nan, d_three] = some true :=
  ⟨⟨_, _, _, all_finite_eq x args, any_nan_eq x args, any_inf_eq x args,
      list_all_finite_eq (x :: args)⟩,
    by decide, by decide, by decide, by decide, by decide, by decide⟩

/-- C17 (defect of the source): the claim says that for every number of
arguments `any_inf(xs)` equals `any_neginf(xs) || any_posinf(xs)`.  On
`(1.0, 2.0, -inf)`, `any_inf` returns true and `any_posinf` false while
`any_neginf` returns nothing (as on every list of three or more arguments), so
the right-hand side has no value.  On one and on two arguments the three calls
return booleans and the equation holds. -/
theorem any_inf_any_neginf_three_args :
    any_inf [d_one, d_two, d_neginf] = some true
    ∧ any_posinf [d_one, d_two, d_neginf] = some false
    ∧ any_neginf [d_one, d_two, d_neginf] = none
    ∧ (∀ (G : Format) (x y z : FP G) (rest : List (FP G)),
        any_neginf (x :: y :: z :: rest) = none
        ∧ ∃ i, any_inf (x :: y :: z :: rest) = some i)
    ∧ (∀ (G : Format) (x : FP G), ∃ i n p, any_inf [x] = some i
        ∧ any_neginf [x] = some n ∧ any_posinf [x] = some p ∧ i = (n || p))
    ∧ (∀ (G : Format) (x y : FP G), ∃ i n p, any_inf [x, y] = some i
        ∧ any_neginf [x, y] = some n ∧ any_posinf [x, y] = some p ∧ i = (n || p)) := by
  refine ⟨by decide, by decide, rfl,
    fun _ x y z rest => ⟨any_neginf_three x y z rest, _, any_inf_eq x _⟩,
    fun _ x => ⟨_, _, _, rfl, rfl, rfl, rfl⟩,
    fun _ x y => ⟨_, _, _, rfl, any_neginf_two x y, rfl, ?_⟩⟩
  simp only [is_inf]
  cases is_neginf x <;> cases is_posinf x <;> cases is_neginf y <;> cases is_posinf y <;> rfl

theorem is_nan_and_is_inf (a : FP F) : (is_nan a && is_inf a) = false := by
  rw [is_nan_eq_isNaN, is_inf_eq_isInfinite, FP.isNaN, FP.isInfinite, bne]
  cases (a.exp + 1 == 2 ^ F.ebits) <;> cases (a.man == 0) <;> rfl

/-- C18: on every non-empty argument list `any_nan`, `any_inf` and
`any_finite` return booleans of which at least one is true, and at most one of
`all_nan`, `all_inf`, `all_finite` is true: no two of them are true together.
`all_inf` and `all_finite` return booleans that are never both true, and the
conjunction of `is_nan` over the arguments is never true together with that of
`is_inf` or of `is_finite`. -/
theorem any_one_true_all_at_most_one (x : FP F) (args : List (FP F)) :
    (∃ n i f, any_nan (x :: args) = some n ∧ any_inf (x :: args) = some i
      ∧ any_finite (x :: args) = some f ∧ (n || i || f) = true)
    ∧ (any_nan (x :: args) = some true ∨ any_inf (x :: args) = some true
      ∨ any_finite (x :: args) = some true)
    ∧ ¬ (all_nan (x :: args) = some true ∧ all_inf (x :: args) = some true)
    ∧ ¬ (all_nan (x :: args) = some true ∧ all_finite (x :: args) = some true)
    ∧ ¬ (all_inf (x :: args) = some true ∧ all_finite (x :: args) = some true)
    ∧ (∃ i f, all_inf (x :: args) = some i ∧ all_finite (x :: args) = some f
      ∧ (i && f) = false)
    ∧ ((x :: args).all is_nan && (x :: args).all is_inf) = false
    ∧ ((x :: args).all is_nan && (x :: args).all is_finite) = false
    ∧ any_nan [d_nan, d_inf, d_one] = some true
    ∧ any_inf [d_nan, d_inf, d_one] = some true
    ∧ any_finite [d_nan, d_inf, d_one] = some true
    ∧ all_inf [d_inf, d_neginf] = some true
    ∧ all_finite [d_inf, d_neginf] = some false
    ∧ all_finite [d_one, d_two] = some true
    ∧ all_inf [d_one, d_two] = some false := by
  have hany : ((x :: args).any is_nan || (x :: args).any is_inf
      || (x :: args).any is_finite) = true := by
    have h := is_nan_or_is_inf_or_is_finite x
    simp only [List.any_cons]
    revert h
    cases is_nan x <;> cases is_inf x <;> cases is_finite x <;> simp
  have hall : ((x :: args).all is_inf && (x :: args).all is_finite) = false := by
    have h := is_inf_and_is_finite x
    simp only [List.all_cons]
    revert h
    cases is_inf x <;> cases is_finite x <;> simp
  have hni : (is_nan x && is_inf x) = false := is_nan_and_is_inf x
  have hnf : (is_nan x && is_finite x) = false := by
    rw [is_finite]
    cases is_nan x <;> cases is_inf x <;> rfl
  refine ⟨⟨_, _, _, any_nan_eq x args, any_inf_eq x args, any_finite_eq x args, hany⟩,
    ?_, ?_, ?_, ?_, ⟨_, _, all_inf_eq x args, all_finite_eq x args, hall⟩, ?_, ?_,
    by decide, by decide, by decide, by decide, by decide, by decide, by decide⟩
  · rw [any_nan_eq, any_inf_eq, any_finite_eq]
    revert hany
    cases (x :: args).any is_nan <;> cases (x :: args).any is_inf <;>
      cases (x :: args).any is_finite <;> simp
  · rintro ⟨h, _⟩
    rw [all_nan_eq_none] at h
    exact Option.noConfusion h
  · rintro ⟨h, _⟩
    rw [all_nan_eq_none] at h
    exact Option.noConfusion h
  · rintro ⟨hi, hf⟩
    rw [all_inf_eq, Option.some_inj] at hi
    rw [all_finite_eq, Option.some_inj] at hf
    rw [hi, hf] at hall
    exact Bool.noConfusion hall
  · simp only [List.all_cons]
    revert hni
    cases is_nan x <;> cases is_inf x <;> simp
  · simp only [List.all_cons]
    revert hnf
    cases is_nan x <;> cases is_finite x <;> simp

/-- C19: for every non-empty argument list, `all_posinf`, `all_neginf` and
`all_inf` return booleans; `all_posinf(xs) || all_neginf(xs)` implies
`all_inf(xs)`, and `all_posinf(xs)`, `all_neginf(xs)` are never both true.
The converse fails: `all_inf(+inf, -inf)` is true while `all_posinf(+inf, -inf)`
and `all_neginf(+inf, -inf)` are false. -/
theorem all_signed_inf_imp_all_inf (x : FP F) (args : List (FP F)) :
    (∃ p n i, all_posinf (x :: args) = some p ∧ all_neginf (x :: args) = some n
      ∧ all_inf (x :: args) = some i ∧ ((p || n) = true → i = true) ∧ (p && n) = false)
    ∧ all_inf [d_inf, d_neginf] = some true
    ∧ all_posinf [d_inf, d_neginf] = some false
    ∧ all_neginf [d_inf, d_neginf] = some false := by
  refine ⟨⟨_, _, _, all_posinf_eq x args, all_neginf_eq x args, all_inf_eq x args, ?_, ?_⟩,
    by decide, by decide, by decide⟩
  · intro h
    rw [Bool.or_eq_true, List.all_eq_true, List.all_eq_true] at h
    rw [List.all_eq_true]
    intro a ha
    rw [is_inf, Bool.or_eq_true]
    rcases h with h | h
    · exact Or.inr (h a ha)
    · exact Or.inl (h a ha)
  · have h := is_posinf_and_is_neginf x
    simp only [List.all_cons]
    revert h
    cases is_posinf x <;> cases is_neginf x <;> simp

/-- Instance of C19 at `double`: on `(+inf, +inf)` the premise holds, and
`all_inf` is true. -/
theorem all_signed_inf_imp_all_inf_witness :
    all_posinf [d_inf, d_inf] = some true ∧ all_inf [d_inf, d_inf] = some true := by
  obtain ⟨⟨p, n, i, hp, _, hi, himp, _⟩, _⟩ := all_signed_inf_imp_all_inf d_inf [d_inf]
  have h1 : all_posinf [d_inf, d_inf] = some true := by decide
  have hp1 : p = true := (Option.some.inj (hp.symm.trans h1))
  refine ⟨h1, ?_⟩
  rw [hi, himp (by rw [hp1]; rfl)]

end Gcem
